import Mathlib

/-!
Verification of the LoadModule-ssl reconciliation pass of
`certbot-apache/certbot_apache/override_centos.py` (CentOS override of the
Apache configurator).

The source manipulates configuration addresses as Python strings (Augeas
paths).  We embed strings as `List Char` and give executable translations of
the Python string primitives the source uses (`rpartition`, `partition`,
`split(...)[0]`, `in`, `lower`, `startswith`, slicing).  The parser/store the
source calls into (`find_dir`, `get_all_args`, `create_ifmod`, `get_ifmod`,
`loc["default"]`, `aug.remove`, `add_dir`) is not part of the given source
tree; it is modelled from the spec as an oracle record `ParserModel`, and the
mutations the pass issues are recorded in order as an event list (`Plan`).
-/

/-- A Python string, embedded as a list of characters. -/
abbrev Pstr := List Char

/-- Conversion from a Lean string literal to the embedding. -/
def toPstr (s : String) : Pstr := s.data

/-- Python `str.lower()`. -/
def strLower (s : Pstr) : Pstr := s.map Char.toLower

/-- All indices `i` of `hay` (including `hay.length`) at which `needle`
occurs, i.e. at which `needle` is a prefix of `hay.drop i`, in increasing
order. -/
def matchIdxs (hay needle : Pstr) : List Nat :=
  (List.range (hay.length + 1)).filter (fun i => needle.isPrefixOf (hay.drop i))

/-- Python `hay.find(needle)`-style first-occurrence index, as an `Option`. -/
def findSub (hay needle : Pstr) : Option Nat := (matchIdxs hay needle).head?

/-- Python `hay.rfind(needle)`-style last-occurrence index, as an `Option`. -/
def rfindSub (hay needle : Pstr) : Option Nat := (matchIdxs hay needle).getLast?

/-- Python `needle in hay` (substring test). -/
def hasSub (hay needle : Pstr) : Bool := !(matchIdxs hay needle).isEmpty

/-- Python `s.rpartition(sep)`: split at the LAST occurrence of `sep`;
when `sep` does not occur the result is `("", "", s)`. -/
def rpartition (s sep : Pstr) : Pstr × Pstr × Pstr :=
  match rfindSub s sep with
  | some i => (s.take i, sep, s.drop (i + sep.length))
  | none => ([], [], s)

/-- Python `s.partition(sep)[0]` and `s.split(sep)[0]`: the prefix of `s`
strictly before the FIRST occurrence of `sep`, or all of `s` when `sep` does
not occur. -/
def splitHead (s sep : Pstr) : Pstr :=
  match findSub s sep with
  | some i => s.take i
  | none => s

/-- The guard token `"!mod_ssl.c"`. -/
def sGuard : Pstr := toPstr "!mod_ssl.c"

/-- The lowercase wrapper-type token `"ifmodule"`. -/
def sIfmodule : Pstr := toPstr "ifmodule"

/-- The token `"ifmodule/"` (tested case-sensitively by the source). -/
def sIfmoduleSlash : Pstr := toPstr "ifmodule/"

/-- The token `"ifmodule[1]"` (tested against the lowercased path). -/
def sIfmoduleOne : Pstr := toPstr "ifmodule[1]"

/-- The path separator `"/"`. -/
def sSlash : Pstr := toPstr "/"

/-- The opening bracket `"["`. -/
def sLbrack : Pstr := toPstr "["

/-- The directive-segment marker `"/directive"`. -/
def sDirSeg : Pstr := toPstr "/directive"

/-- The directive name `"LoadModule"`. -/
def sLoadModule : Pstr := toPstr "LoadModule"

/-- The note appended after force-creating the wrapper in the main
configuration file. -/
def noteAdded : Pstr := toPstr "Added LoadModule ssl_module to main configuration.\n"

/-- The note appended after wrapping a pre-existing occurrence. -/
def noteWrapped : Pstr :=
  toPstr "Wrapped pre-existing LoadModule ssl_module inside of <IfModule !mod_ssl> block.\n"

/-- The loop of `CentOSParser.not_modssl_ifmodule`: starting from the
lowercased work path, repeatedly `rpartition` at the last `"ifmodule"`,
rebuild the candidate wrapper prefix (appending the `"[index]"` part when the
tail starts with `"["`), restore the original casing by length-trimming the
original path, and test whether the store reports `"!mod_ssl.c"` among the
arguments at that address; on failure re-trim to the heading part.  `fuel`
bounds the iteration count (the work path strictly shrinks, so
`path.length + 1` is always enough). -/
def notModsslLoop (g : Pstr → List Pstr) (path : Pstr) : Nat → Pstr → Bool
  | 0, _ => false
  | fuel + 1, workpath =>
    if workpath = [] then false
    else
      let parts := rpartition workpath sIfmodule
      if parts.1 = [] then false
      else
        let ifmodPath0 := parts.1 ++ parts.2.1
        let ifmodPath :=
          if sLbrack.isPrefixOf parts.2.2 then ifmodPath0 ++ splitHead parts.2.2 sSlash
          else ifmodPath0
        let ifmodRealPath := path.take ifmodPath.length
        if sGuard ∈ g ifmodRealPath then true
        else notModsslLoop g path fuel parts.1

/-- `CentOSParser.not_modssl_ifmodule(path)`: checks whether the provided
Augeas path lies inside an `IfModule` block whose arguments contain
`"!mod_ssl.c"`, scanning candidate wrappers from the innermost (last)
`"ifmodule"` segment outward.  `g` is the store's `get_all_args`. -/
def not_modssl_ifmodule (g : Pstr → List Pstr) (path : Pstr) : Bool :=
  if hasSub (strLower path) sIfmodule then
    notModsslLoop g path (path.length + 1) (strLower path)
  else false

/-- The candidate wrapper addresses `not_modssl_ifmodule` queries, in the
order it queries them (innermost outward); same recursion as
`notModsslLoop`, with the store query dropped. -/
def nmiCandidates (path : Pstr) : Nat → Pstr → List Pstr
  | 0, _ => []
  | fuel + 1, workpath =>
    if workpath = [] then []
    else
      let parts := rpartition workpath sIfmodule
      if parts.1 = [] then []
      else
        let ifmodPath0 := parts.1 ++ parts.2.1
        let ifmodPath :=
          if sLbrack.isPrefixOf parts.2.2 then ifmodPath0 ++ splitHead parts.2.2 sSlash
          else ifmodPath0
        path.take ifmodPath.length :: nmiCandidates path fuel parts.1

/-- Modelled from the spec: the DirectiveStore / ApacheParser interface the
pass consumes, which is not part of the given source tree.  `find_dir` is the
result of `find_dir("LoadModule", "ssl_module", exclude=False)` (a list of
Augeas paths of the matched `arg` nodes); `get_all_args` resolves an address
to the argument list of the node there; `loc_default` is
`parser.loc["default"]`, the main configuration file; `create_ifmod` is the
address (with trailing `"/"`) returned by
`create_ifmod(get_aug_path(loc["default"]), "!mod_ssl.c", beginning=True)`;
`get_ifmod scope` is the address (with trailing `"/"`) returned by the
find-or-create `get_ifmod(scope, "!mod_ssl.c", beginning=True)`. -/
structure ParserModel where
  find_dir : List Pstr
  get_all_args : Pstr → List Pstr
  loc_default : Pstr
  create_ifmod : Pstr
  get_ifmod : Pstr → Pstr

/-- Modelled from the spec: `parser.get_aug_path(p)` — the Augeas address of
a configuration file, `"/files" ++ p` (parser code not in the source tree). -/
def augPath (p : Pstr) : Pstr := toPstr "/files" ++ p

/-- A store call issued by the pass, in issue order: wrapper creation,
directive addition, node removal, and the find-or-create wrapper lookup
(which creates the wrapper when none matches). -/
inductive Ev where
  | createIfmod (scope : Pstr) (guard : Pstr) (beginning : Bool)
  | addDir (path : Pstr) (name : Pstr) (args : List Pstr)
  | removeDir (path : Pstr)
  | getIfmod (scope : Pstr) (guard : Pstr) (beginning : Bool)
deriving DecidableEq

/-- The reconciliation plan: the store calls issued, in order, and the
human-readable notes appended to `save_notes`, in order. -/
structure Plan where
  evs : List Ev
  notes : List Pstr
deriving DecidableEq

/-- Outcome of one pass: `MisconfigurationError`, or a finished plan. -/
inductive Outcome where
  | err
  | ok (pl : Plan)
deriving DecidableEq

/-- Result of the enumeration loop of `_deploy_loadmodule_ssl_if_needed`:
the raised conflict error, the early `return` (already compliant), or normal
completion carrying `loadmod_args`, `correct_ifmods` and `loadmod_paths`. -/
inductive LoopRes where
  | err
  | earlyRet
  | done (la : List Pstr) (ci : List Pstr) (lp : List Pstr)
deriving DecidableEq

/-- `noarg_path = m.rpartition("/")[0]`: the directive address obtained from
a matched-argument address. -/
def noargOf (m : Pstr) : Pstr := (rpartition m sSlash).1

/-- The argument list of the directive occurrence behind a matched-argument
address. -/
def argsAt (P : ParserModel) (m : Pstr) : List Pstr := P.get_all_args (noargOf m)

/-- The already-compliant test of the pass for one occurrence: it lies in a
`!mod_ssl.c` wrapper, its address is inside the main configuration file, and
the address shows the wrapper is the first or only `IfModule` there
(`"ifmodule/" in noarg_path or "ifmodule[1]" in noarg_path.lower()`). -/
def alreadyCompliant (P : ParserModel) (m : Pstr) : Bool :=
  not_modssl_ifmodule P.get_all_args (noargOf m) &&
    (hasSub (noargOf m) P.loc_default &&
      (hasSub (noargOf m) sIfmoduleSlash || hasSub (strLower (noargOf m)) sIfmoduleOne))

/-- The `for m in loadmods` loop of `_deploy_loadmodule_ssl_if_needed`:
per occurrence, first the conflict check against the running `loadmod_args`
(raise when a non-empty `loadmod_args` differs from this occurrence's
argument list, otherwise adopt the argument list when `loadmod_args` is still
empty), then the wrapper classification: occurrences inside a `!mod_ssl.c`
wrapper trigger the early `return` when inside the first-or-only wrapper of
the main file, and otherwise contribute `rpartition(noarg, "/directive")[0]`
to `correct_ifmods`; occurrences without such a wrapper contribute
`noarg_path` to `loadmod_paths`. -/
def deployLoop (P : ParserModel) : List Pstr → List Pstr → List Pstr → List Pstr → LoopRes
  | [], la, ci, lp => LoopRes.done la ci lp
  | m :: rest, la, ci, lp =>
    let noarg := noargOf m
    let pathArgs := P.get_all_args noarg
    if la ≠ [] ∧ la ≠ pathArgs then LoopRes.err
    else
      let la2 := if la = [] then pathArgs else la
      if not_modssl_ifmodule P.get_all_args noarg then
        if hasSub noarg P.loc_default &&
            (hasSub noarg sIfmoduleSlash || hasSub (strLower noarg) sIfmoduleOne) then
          LoopRes.earlyRet
        else deployLoop P rest la2 (ci ++ [(rpartition noarg sDirSeg).1]) lp
      else deployLoop P rest la2 ci (lp ++ [noarg])

/-- The `for loadmod_path in loadmod_paths` loop: trim the directive path at
the FIRST `"/directive"` to recover its scope, remove the old directive,
find-or-create a `!mod_ssl.c` wrapper at that scope, and unless that wrapper
was already produced this pass (`correct_ifmods`), add the directive there
and append the wrapped note. -/
def rewrapLoop (P : ParserModel) (la : List Pstr) :
    List Pstr → List Pstr → List Ev → List Pstr → Plan
  | [], _, evs, notes => ⟨evs, notes⟩
  | l :: rest, ci, evs, notes =>
    let nodir := splitHead l sDirSeg
    let sslIfmod := (P.get_ifmod nodir).dropLast
    let evs2 := evs ++ [Ev.removeDir l, Ev.getIfmod nodir sGuard true]
    if sslIfmod ∈ ci then rewrapLoop P la rest ci evs2 notes
    else
      rewrapLoop P la rest (ci ++ [sslIfmod])
        (evs2 ++ [Ev.addDir sslIfmod sLoadModule la]) (notes ++ [noteWrapped])

/-- `CentOSConfigurator._deploy_loadmodule_ssl_if_needed`: enumerate the
occurrences, run the classification loop; on normal completion return the
empty plan when no argument list was found, and otherwise force-create the
wrapper at the beginning of the main configuration file, add the directive
there, and rewrap every unwrapped occurrence. -/
def _deploy_loadmodule_ssl_if_needed (P : ParserModel) : Outcome :=
  match deployLoop P P.find_dir [] [] [] with
  | LoopRes.err => Outcome.err
  | LoopRes.earlyRet => Outcome.ok ⟨[], []⟩
  | LoopRes.done la ci lp =>
    if la = [] then Outcome.ok ⟨[], []⟩
    else
      let root := P.create_ifmod.dropLast
      Outcome.ok (rewrapLoop P la lp (ci ++ [root])
        [Ev.createIfmod (augPath P.loc_default) sGuard true,
         Ev.addDir root sLoadModule la]
        [noteAdded])

/-- Argument-table-backed `get_all_args`: look the address up, default `[]`. -/
def gOf (tbl : List (Pstr × List Pstr)) : Pstr → List Pstr :=
  fun p => ((tbl.find? (fun e => e.1 = p)).map Prod.snd).getD []

/-- The main configuration file of the CentOS layout. -/
def locD : Pstr := toPstr "/etc/httpd/conf/httpd.conf"

/-- The Augeas address of the main configuration file. -/
def augD : Pstr := augPath locD

/-- A concrete store: occurrences `lm`, argument table `tbl`, with the
created wrapper at the beginning of the main file and `get_ifmod` returning
the first wrapper of the queried scope. -/
def mkModel (lm : List Pstr) (tbl : List (Pstr × List Pstr)) : ParserModel where
  find_dir := lm
  get_all_args := gOf tbl
  loc_default := locD
  create_ifmod := augD ++ toPstr "/IfModule[1]/"
  get_ifmod := fun n => n ++ toPstr "/IfModule[1]/"

/-- Canonical argument list `["ssl_module", "modules/mod_ssl.so"]`. -/
def aArgs : List Pstr := [toPstr "ssl_module", toPstr "modules/mod_ssl.so"]

/-- A different, conflicting argument list. -/
def bArgs : List Pstr := [toPstr "ssl_module", toPstr "/other/mod_ssl.so"]

/-- Directive address wrapped in the main file's first `IfModule`. -/
def pWrap : Pstr := augD ++ toPstr "/IfModule[1]/directive[1]"

/-- Matched-arg address below `pWrap`. -/
def mWrap : Pstr := pWrap ++ toPstr "/arg[1]"

/-- The main file's first `IfModule` wrapper address. -/
def wDef : Pstr := augD ++ toPstr "/IfModule[1]"

/-- Unwrapped directive address directly in the main file. -/
def pTop : Pstr := augD ++ toPstr "/directive[7]"

/-- Matched-arg address below `pTop`. -/
def mTop : Pstr := pTop ++ toPstr "/arg[1]"

/-- Unwrapped directive address in a non-primary file. -/
def pOther : Pstr := toPstr "/files/etc/httpd/conf.d/other.conf/directive[1]"

/-- Matched-arg address below `pOther`. -/
def mOther : Pstr := pOther ++ toPstr "/arg[1]"


/-- The `correct_ifmods` entries contributed by a conflict-free,
non-early-returning run of the enumeration loop: for each occurrence inside a
`!mod_ssl.c` wrapper, the path trimmed at the LAST `"/directive"`. -/
def ciOf (P : ParserModel) (ms : List Pstr) : List Pstr :=
  (ms.filter (fun m => not_modssl_ifmodule P.get_all_args (noargOf m))).map
    (fun m => (rpartition (noargOf m) sDirSeg).1)

/-- The `loadmod_paths` entries contributed by a conflict-free,
non-early-returning run of the enumeration loop: the directive paths of the
occurrences not inside a `!mod_ssl.c` wrapper. -/
def lpOf (P : ParserModel) (ms : List Pstr) : List Pstr :=
  (ms.filter (fun m => !(not_modssl_ifmodule P.get_all_args (noargOf m)))).map noargOf

/-- The first non-empty argument list in enumeration order (the canonical
list the loop converges to), `[]` when there is none. -/
def firstNonempty : List (List Pstr) → List Pstr
  | [] => []
  | a :: r => if a = [] then firstNonempty r else a

/-- `needle` occurs in `s` at index `i`. -/
def occursAt (s needle : Pstr) (i : Nat) : Prop := needle.isPrefixOf (s.drop i) = true

instance (s needle : Pstr) (i : Nat) : Decidable (occursAt s needle i) := by
  unfold occursAt
  infer_instance

/-- Modelled from the spec: what a store looks like when re-enumerated after
a successful mutating pass (the store-mutation semantics — `create_ifmod` at
the beginning of the main file, `add_dir` of the canonical arguments there,
and the rewrap of the remaining occurrences — live in parser code that is not
part of the given source tree).  All enumerated occurrences carry the one
canonical argument list, and the occurrence added inside the force-created
wrapper is enumerated and classified already compliant (its wrapper is the
first — index 1 — wrapper of the main configuration file). -/
def SecondRunFaithful (Q : ParserModel) : Prop :=
  ∃ A, (∀ m ∈ Q.find_dir, argsAt Q m = A) ∧
    ∃ m ∈ Q.find_dir, alreadyCompliant Q m = true

/-- A non-primary file scope. -/
def pOtherFile : Pstr := toPstr "/files/etc/httpd/conf.d/other.conf"

/-- The wrapper `get_ifmod` yields at the non-primary file scope. -/
def wOther : Pstr := pOtherFile ++ toPstr "/IfModule[1]"

/-- Directive address nested in two `IfModule` levels in the main file. -/
def pNested : Pstr := augD ++ toPstr "/IfModule[1]/IfModule[2]/directive[1]"

/-- The inner (second-level) wrapper address of `pNested`. -/
def wNestedIn : Pstr := augD ++ toPstr "/IfModule[1]/IfModule[2]"

/-- A path in which the segment name `"/directive"` occurs twice. -/
def s9c : Pstr := toPstr "/files/etc/httpd/sites/directive-dir.conf/directive[1]"

/-- Store for the C1 counterexample: first occurrence correctly wrapped in
the main file's first wrapper (arguments `aArgs`), second occurrence
elsewhere with different non-empty arguments `bArgs`. -/
def storeC1 : ParserModel :=
  mkModel [mWrap, mOther] [(pWrap, aArgs), (wDef, [sGuard]), (pOther, bArgs)]

/-- Store for the C1 witness: two unwrapped occurrences with different
non-empty argument lists. -/
def storeC1w : ParserModel := mkModel [mTop, mOther] [(pTop, aArgs), (pOther, bArgs)]

/-- Store for the C2 witness: one occurrence, already compliant. -/
def storeC2w : ParserModel := mkModel [mWrap] [(pWrap, aArgs), (wDef, [sGuard])]

/-- Store for the C3 counterexample: an unwrapped occurrence with arguments
`bArgs` enumerated before a compliant occurrence with arguments `aArgs`. -/
def storeC3 : ParserModel :=
  mkModel [mOther, mWrap] [(pOther, bArgs), (pWrap, aArgs), (wDef, [sGuard])]

/-- Store for the C3 witness: an unwrapped occurrence elsewhere and a
compliant occurrence in the main file, with identical arguments. -/
def storeC3w : ParserModel :=
  mkModel [mOther, mWrap] [(pOther, aArgs), (pWrap, aArgs), (wDef, [sGuard])]

/-- Store with no occurrence of the target directive. -/
def storeC4 : ParserModel := mkModel [] []

/-- Store for C5: a single unwrapped occurrence in a non-primary file. -/
def storeC5 : ParserModel := mkModel [mOther] [(pOther, aArgs)]

/-- Store for C6: a single unwrapped occurrence directly in the main file. -/
def storeC6 : ParserModel := mkModel [mTop] [(pTop, aArgs)]

/-- Store for C8: one occurrence whose argument list is empty. -/
def storeC8 : ParserModel := mkModel [mTop] []

/-- Store for the C10 witness: an empty-argument occurrence enumerated
before a non-empty one. -/
def storeC10w : ParserModel := mkModel [mWrap, mTop] [(pTop, aArgs)]

lemma all_eq_head_getLast {l : List Nat} {i : Nat} (hne : l ≠ []) (hall : ∀ x ∈ l, x = i) :
    l.head? = some i ∧ l.getLast? = some i := by
  cases l with
  | nil => exact absurd rfl hne
  | cons a t =>
    refine ⟨by simp [hall a (by simp)], ?_⟩
    rw [List.getLast?_eq_getLast _ (by simp)]
    exact congrArg some (hall _ (List.getLast_mem _))

lemma mem_matchIdxs {s d : Pstr} {i : Nat} :
    i ∈ matchIdxs s d ↔ i ≤ s.length ∧ occursAt s d i := by
  simp [matchIdxs, List.mem_filter, List.mem_range, Nat.lt_succ_iff, occursAt]

lemma occursAt_lt_length {s d : Pstr} {i : Nat} (hd : d ≠ []) (h : occursAt s d i) :
    i < s.length := by
  unfold occursAt at h
  have hp : d <+: s.drop i := by simpa [List.isPrefixOf_iff_prefix] using h
  have hlen : d.length ≤ (s.drop i).length := hp.length_le
  have hpos : 0 < d.length := List.length_pos.mpr hd
  simp only [List.length_drop] at hlen
  omega

lemma matchIdxs_single {s d : Pstr} {i : Nat} (hd : d ≠ []) (hocc : occursAt s d i)
    (huniq : ∀ j, occursAt s d j → j = i) :
    findSub s d = some i ∧ rfindSub s d = some i := by
  have hmem : i ∈ matchIdxs s d :=
    mem_matchIdxs.mpr ⟨le_of_lt (occursAt_lt_length hd hocc), hocc⟩
  have hall : ∀ x ∈ matchIdxs s d, x = i := fun x hx => huniq x (mem_matchIdxs.mp hx).2
  have hne : matchIdxs s d ≠ [] := by
    intro h
    rw [h] at hmem
    exact absurd hmem (List.not_mem_nil i)
  unfold findSub rfindSub
  exact all_eq_head_getLast hne hall

lemma rfindSub_eq_none {h n : Pstr} (hh : hasSub h n = false) : rfindSub h n = none := by
  unfold hasSub at hh
  unfold rfindSub
  cases hmi : matchIdxs h n with
  | nil => rfl
  | cons a t => rw [hmi] at hh; simp at hh

lemma notModsslLoop_eq_any (g : Pstr → List Pstr) (path : Pstr) :
    ∀ fuel wp, notModsslLoop g path fuel wp =
      (nmiCandidates path fuel wp).any (fun c => decide (sGuard ∈ g c)) := by
  intro fuel
  induction fuel with
  | zero => intro wp; rfl
  | succ n ih =>
    intro wp
    by_cases h1 : wp = []
    · simp [notModsslLoop, nmiCandidates, h1]
    · by_cases h2 : (rpartition wp sIfmodule).1 = []
      · simp [notModsslLoop, nmiCandidates, h1, h2]
      · simp only [notModsslLoop, nmiCandidates, if_neg h1, if_neg h2, List.any_cons]
        rw [ih]
        split
        next hx => simp [hx]
        next hx => simp [hx]

lemma nmi_eq_any (g : Pstr → List Pstr) (path : Pstr) :
    not_modssl_ifmodule g path =
      (nmiCandidates path (path.length + 1) (strLower path)).any
        (fun c => decide (sGuard ∈ g c)) := by
  unfold not_modssl_ifmodule
  by_cases h : hasSub (strLower path) sIfmodule = true
  · rw [if_pos h]
    exact notModsslLoop_eq_any g path _ _
  · rw [if_neg h]
    have hn : rfindSub (strLower path) sIfmodule = none :=
      rfindSub_eq_none (Bool.not_eq_true _ ▸ h)
    by_cases h1 : strLower path = []
    · simp [nmiCandidates, h1]
    · simp [nmiCandidates, h1, rpartition, hn]

lemma deployLoop_cons (P : ParserModel) (m : Pstr) (rest la ci lp : List Pstr) :
    deployLoop P (m :: rest) la ci lp =
      if la ≠ [] ∧ la ≠ argsAt P m then LoopRes.err
      else
        if not_modssl_ifmodule P.get_all_args (noargOf m) then
          if hasSub (noargOf m) P.loc_default &&
              (hasSub (noargOf m) sIfmoduleSlash ||
                hasSub (strLower (noargOf m)) sIfmoduleOne) then
            LoopRes.earlyRet
          else
            deployLoop P rest (if la = [] then argsAt P m else la)
              (ci ++ [(rpartition (noargOf m) sDirSeg).1]) lp
        else deployLoop P rest (if la = [] then argsAt P m else la) ci (lp ++ [noargOf m]) :=
  rfl

lemma compl_parts {P : ParserModel} {m : Pstr} (h : alreadyCompliant P m = true) :
    not_modssl_ifmodule P.get_all_args (noargOf m) = true ∧
    (hasSub (noargOf m) P.loc_default &&
      (hasSub (noargOf m) sIfmoduleSlash ||
        hasSub (strLower (noargOf m)) sIfmoduleOne)) = true := by
  unfold alreadyCompliant at h
  exact Bool.and_eq_true_iff.mp h

lemma inner_false_of_compl_false {P : ParserModel} {m : Pstr}
    (h : alreadyCompliant P m = false)
    (hn : not_modssl_ifmodule P.get_all_args (noargOf m) = true) :
    (hasSub (noargOf m) P.loc_default &&
      (hasSub (noargOf m) sIfmoduleSlash ||
        hasSub (strLower (noargOf m)) sIfmoduleOne)) = false := by
  unfold alreadyCompliant at h
  rw [hn] at h
  simpa using h

lemma deployLoop_step_noncompl (P : ParserModel) {m : Pstr} (rest la ci lp : List Pstr)
    (R : LoopRes) (hc0 : alreadyCompliant P m = false)
    (hcond : ¬(la ≠ [] ∧ la ≠ argsAt P m))
    (hrec : ∀ ci2 lp2, deployLoop P rest (if la = [] then argsAt P m else la) ci2 lp2 = R) :
    deployLoop P (m :: rest) la ci lp = R := by
  rw [deployLoop_cons, if_neg hcond]
  by_cases hn : not_modssl_ifmodule P.get_all_args (noargOf m) = true
  · have hi := inner_false_of_compl_false hc0 hn
    rw [if_pos hn, if_neg (by simp [hi])]
    exact hrec _ _
  · rw [if_neg hn]
    exact hrec _ _

lemma deployLoop_earlyRet (P : ParserModel) (A : List Pstr) :
    ∀ (ms la ci lp : List Pstr),
      (∀ m ∈ ms, argsAt P m = A) → (la = [] ∨ la = A) →
      (∃ m ∈ ms, alreadyCompliant P m = true) →
      deployLoop P ms la ci lp = LoopRes.earlyRet := by
  intro ms
  induction ms with
  | nil =>
    intro la ci lp _ _ hex
    simp at hex
  | cons m rest ih =>
    intro la ci lp hargs hla hex
    have hm : argsAt P m = A := hargs m (List.mem_cons_self m rest)
    have hcond : ¬(la ≠ [] ∧ la ≠ argsAt P m) := by
      rcases hla with h | h
      · exact fun hc => hc.1 h
      · exact fun hc => hc.2 (h.trans hm.symm)
    have hla2 : (if la = [] then argsAt P m else la) = A := by
      rcases hla with h | h
      · simp [h, hm]
      · by_cases h0 : la = [] <;> simp [h0, h, hm]
    rcases hex with ⟨m0, hm0, hc0⟩
    rcases List.mem_cons.mp hm0 with he | he
    · subst he
      obtain ⟨hn, hi⟩ := compl_parts hc0
      rw [deployLoop_cons, if_neg hcond, if_pos hn, if_pos hi]
    · by_cases hcm : alreadyCompliant P m = true
      · obtain ⟨hn, hi⟩ := compl_parts hcm
        rw [deployLoop_cons, if_neg hcond, if_pos hn, if_pos hi]
      · have hc0f : alreadyCompliant P m = false := by
          revert hcm; cases alreadyCompliant P m <;> simp
        refine deployLoop_step_noncompl P rest la ci lp LoopRes.earlyRet hc0f hcond ?_
        intro ci2 lp2
        rw [hla2]
        exact ih A ci2 lp2 (fun x hx => hargs x (List.mem_cons_of_mem _ hx)) (Or.inr rfl)
          ⟨m0, he, hc0⟩

lemma deployLoop_done_fixed (P : ParserModel) (A : List Pstr) :
    ∀ (ms ci lp : List Pstr),
      (∀ m ∈ ms, argsAt P m = A) → (∀ m ∈ ms, alreadyCompliant P m = false) →
      deployLoop P ms A ci lp = LoopRes.done A (ci ++ ciOf P ms) (lp ++ lpOf P ms) := by
  intro ms
  induction ms with
  | nil =>
    intro ci lp _ _
    simp [deployLoop, ciOf, lpOf]
  | cons m rest ih =>
    intro ci lp hargs hcompl
    have hm : argsAt P m = A := hargs m (List.mem_cons_self m rest)
    have hcond : ¬(A ≠ [] ∧ A ≠ argsAt P m) := fun hc => hc.2 hm.symm
    have hla2 : (if A = [] then argsAt P m else A) = A := by
      by_cases h0 : A = [] <;> simp [h0, hm]
    have hc0 : alreadyCompliant P m = false := hcompl m (List.mem_cons_self m rest)
    rw [deployLoop_cons, if_neg hcond, hla2]
    by_cases hn : not_modssl_ifmodule P.get_all_args (noargOf m) = true
    · have hi := inner_false_of_compl_false hc0 hn
      rw [if_pos hn, if_neg (by simp [hi])]
      rw [ih (ci ++ [(rpartition (noargOf m) sDirSeg).1]) lp
        (fun x hx => hargs x (List.mem_cons_of_mem _ hx))
        (fun x hx => hcompl x (List.mem_cons_of_mem _ hx))]
      simp [ciOf, lpOf, hn, List.append_assoc]
    · have hn0 : not_modssl_ifmodule P.get_all_args (noargOf m) = false := by
        revert hn; cases not_modssl_ifmodule P.get_all_args (noargOf m) <;> simp
      rw [if_neg hn]
      rw [ih ci (lp ++ [noargOf m])
        (fun x hx => hargs x (List.mem_cons_of_mem _ hx))
        (fun x hx => hcompl x (List.mem_cons_of_mem _ hx))]
      simp [ciOf, lpOf, hn0, List.append_assoc]

lemma deployLoop_done_init (P : ParserModel) (A : List Pstr) (m : Pstr)
    (rest ci lp : List Pstr)
    (hargs : ∀ x ∈ m :: rest, argsAt P x = A)
    (hcompl : ∀ x ∈ m :: rest, alreadyCompliant P x = false) :
    deployLoop P (m :: rest) [] ci lp =
      LoopRes.done A (ci ++ ciOf P (m :: rest)) (lp ++ lpOf P (m :: rest)) := by
  have hm : argsAt P m = A := hargs m (List.mem_cons_self m rest)
  have hcond : ¬(([] : List Pstr) ≠ [] ∧ ([] : List Pstr) ≠ argsAt P m) := fun hc => hc.1 rfl
  have hla2 : (if ([] : List Pstr) = [] then argsAt P m else []) = A := by simp [hm]
  have hc0 : alreadyCompliant P m = false := hcompl m (List.mem_cons_self m rest)
  rw [deployLoop_cons, if_neg hcond, hla2]
  by_cases hn : not_modssl_ifmodule P.get_all_args (noargOf m) = true
  · have hi := inner_false_of_compl_false hc0 hn
    rw [if_pos hn, if_neg (by simp [hi])]
    rw [deployLoop_done_fixed P A rest _ _
      (fun x hx => hargs x (List.mem_cons_of_mem _ hx))
      (fun x hx => hcompl x (List.mem_cons_of_mem _ hx))]
    simp [ciOf, lpOf, hn, List.append_assoc]
  · have hn0 : not_modssl_ifmodule P.get_all_args (noargOf m) = false := by
      revert hn; cases not_modssl_ifmodule P.get_all_args (noargOf m) <;> simp
    rw [if_neg hn]
    rw [deployLoop_done_fixed P A rest _ _
      (fun x hx => hargs x (List.mem_cons_of_mem _ hx))
      (fun x hx => hcompl x (List.mem_cons_of_mem _ hx))]
    simp [ciOf, lpOf, hn0, List.append_assoc]

lemma deployLoop_err_fixed (P : ParserModel) :
    ∀ (ms la ci lp : List Pstr) (j : Nat),
      la ≠ [] → j < ms.length → argsAt P (ms.getD j []) ≠ la →
      (∀ k < j, alreadyCompliant P (ms.getD k []) = false) →
      deployLoop P ms la ci lp = LoopRes.err := by
  intro ms
  induction ms with
  | nil =>
    intro la ci lp j _ hj
    simp at hj
  | cons m rest ih =>
    intro la ci lp j hla hj hne hcompl
    by_cases hm : argsAt P m = la
    · have hj0 : j ≠ 0 := by
        intro h
        subst h
        rw [List.getD_cons_zero] at hne
        exact hne hm
      obtain ⟨j2, rfl⟩ : ∃ j2, j = j2 + 1 := ⟨j - 1, by omega⟩
      have hc0 : alreadyCompliant P m = false := by
        have := hcompl 0 (by omega)
        rwa [List.getD_cons_zero] at this
      refine deployLoop_step_noncompl P rest la ci lp LoopRes.err hc0
        (fun hc => hc.2 hm.symm) ?_
      intro ci2 lp2
      have hla2 : (if la = [] then argsAt P m else la) = la := by simp [hla]
      rw [hla2]
      refine ih la ci2 lp2 j2 hla ?_ ?_ ?_
      · simp only [List.length_cons] at hj; omega
      · rwa [List.getD_cons_succ] at hne
      · intro k hk
        have := hcompl (k + 1) (by omega)
        rwa [List.getD_cons_succ] at this
    · rw [deployLoop_cons, if_pos ⟨hla, fun h => hm h.symm⟩]

lemma deployLoop_err_init (P : ParserModel) :
    ∀ (ms ci lp : List Pstr) (i j : Nat),
      i < j → j < ms.length →
      argsAt P (ms.getD i []) ≠ [] →
      argsAt P (ms.getD i []) ≠ argsAt P (ms.getD j []) →
      (∀ k < j, alreadyCompliant P (ms.getD k []) = false) →
      deployLoop P ms [] ci lp = LoopRes.err := by
  intro ms
  induction ms with
  | nil =>
    intro ci lp i j _ hj
    simp at hj
  | cons m rest ih =>
    intro ci lp i j hij hj hi0 hne hcompl
    obtain ⟨j2, rfl⟩ : ∃ j2, j = j2 + 1 := ⟨j - 1, by omega⟩
    have hc0 : alreadyCompliant P m = false := by
      have := hcompl 0 (by omega)
      rwa [List.getD_cons_zero] at this
    have hlen : j2 < rest.length := by simp only [List.length_cons] at hj; omega
    refine deployLoop_step_noncompl P rest [] ci lp LoopRes.err hc0
      (fun hc => hc.1 rfl) ?_
    intro ci2 lp2
    have hla2 : (if ([] : List Pstr) = [] then argsAt P m else []) = argsAt P m := by simp
    rw [hla2]
    cases i with
    | zero =>
      rw [List.getD_cons_zero] at hi0 hne
      refine deployLoop_err_fixed P rest _ ci2 lp2 j2 hi0 hlen ?_ ?_
      · rw [List.getD_cons_succ] at hne
        exact fun h => hne h.symm
      · intro k hk
        have := hcompl (k + 1) (by omega)
        rwa [List.getD_cons_succ] at this
    | succ i2 =>
      rw [List.getD_cons_succ] at hi0 hne
      by_cases hm0 : argsAt P m = []
      · rw [hm0]
        refine ih ci2 lp2 i2 j2 (by omega) hlen hi0 ?_ ?_
        · rwa [List.getD_cons_succ] at hne
        · intro k hk
          have := hcompl (k + 1) (by omega)
          rwa [List.getD_cons_succ] at this
      · by_cases hx : argsAt P (rest.getD j2 []) = argsAt P m
        · refine deployLoop_err_fixed P rest _ ci2 lp2 i2 hm0 (by omega) ?_ ?_
          · rw [List.getD_cons_succ] at hne
            rw [hx] at hne
            exact fun h => hne h
          · intro k hk
            have := hcompl (k + 1) (by omega)
            rwa [List.getD_cons_succ] at this
        · exact deployLoop_err_fixed P rest _ ci2 lp2 j2 hm0 hlen
            (fun h => hx h)
            (fun k hk => by
              have := hcompl (k + 1) (by omega)
              rwa [List.getD_cons_succ] at this)

lemma rewrapLoop_evs_prefix (P : ParserModel) (la : List Pstr) :
    ∀ (lst ci : List Pstr) (evs : List Ev) (notes : List Pstr),
      ∃ t nt, (rewrapLoop P la lst ci evs notes).evs = evs ++ t ∧
        (rewrapLoop P la lst ci evs notes).notes = notes ++ nt := by
  intro lst
  induction lst with
  | nil =>
    intro ci evs notes
    exact ⟨[], [], by simp [rewrapLoop], by simp [rewrapLoop]⟩
  | cons l rest ih =>
    intro ci evs notes
    rw [rewrapLoop]
    by_cases hmem : (P.get_ifmod (splitHead l sDirSeg)).dropLast ∈ ci
    · rw [if_pos hmem]
      obtain ⟨t, nt, h1, h2⟩ := ih ci
        (evs ++ [Ev.removeDir l, Ev.getIfmod (splitHead l sDirSeg) sGuard true]) notes
      exact ⟨[Ev.removeDir l, Ev.getIfmod (splitHead l sDirSeg) sGuard true] ++ t, nt,
        by rw [h1, List.append_assoc], by rw [h2]⟩
    · rw [if_neg hmem]
      obtain ⟨t, nt, h1, h2⟩ := ih (ci ++ [(P.get_ifmod (splitHead l sDirSeg)).dropLast])
        (evs ++ [Ev.removeDir l, Ev.getIfmod (splitHead l sDirSeg) sGuard true] ++
          [Ev.addDir (P.get_ifmod (splitHead l sDirSeg)).dropLast sLoadModule la])
        (notes ++ [noteWrapped])
      refine ⟨[Ev.removeDir l, Ev.getIfmod (splitHead l sDirSeg) sGuard true] ++
        [Ev.addDir (P.get_ifmod (splitHead l sDirSeg)).dropLast sLoadModule la] ++ t,
        [noteWrapped] ++ nt, ?_, ?_⟩
      · rw [h1]; simp [List.append_assoc]
      · rw [h2]; simp [List.append_assoc]

lemma rewrapLoop_remove_mem (P : ParserModel) (la : List Pstr) :
    ∀ (lst ci : List Pstr) (evs : List Ev) (notes : List Pstr) (l : Pstr),
      l ∈ lst → Ev.removeDir l ∈ (rewrapLoop P la lst ci evs notes).evs := by
  intro lst
  induction lst with
  | nil =>
    intro ci evs notes l hl
    simp at hl
  | cons x rest ih =>
    intro ci evs notes l hl
    rw [rewrapLoop]
    rcases List.mem_cons.mp hl with he | he
    · subst he
      by_cases hmem : (P.get_ifmod (splitHead l sDirSeg)).dropLast ∈ ci
      · rw [if_pos hmem]
        obtain ⟨t, _, h1, _⟩ := rewrapLoop_evs_prefix P la rest ci _ notes
        rw [h1]
        simp
      · rw [if_neg hmem]
        obtain ⟨t, _, h1, _⟩ := rewrapLoop_evs_prefix P la rest _ _ _
        rw [h1]
        simp
    · by_cases hmem : (P.get_ifmod (splitHead x sDirSeg)).dropLast ∈ ci
      · rw [if_pos hmem]
        exact ih _ _ _ l he
      · rw [if_neg hmem]
        exact ih _ _ _ l he

lemma deployLoop_err_emptyAfter (P : ParserModel) :
    ∀ (ms la ci lp : List Pstr),
      (∀ k < ms.length, alreadyCompliant P (ms.getD k []) = false) →
      (∃ j, j < ms.length ∧ argsAt P (ms.getD j []) = [] ∧
        (la ≠ [] ∨ ∃ k, k < j ∧ argsAt P (ms.getD k []) ≠ [])) →
      deployLoop P ms la ci lp = LoopRes.err := by
  intro ms
  induction ms with
  | nil =>
    intro la ci lp _ hex
    obtain ⟨j, hj, _⟩ := hex
    simp at hj
  | cons m rest ih =>
    intro la ci lp hcompl hex
    obtain ⟨j, hj, hjE, hdisj⟩ := hex
    have hc0 : alreadyCompliant P m = false := by
      have := hcompl 0 (by omega)
      rwa [List.getD_cons_zero] at this
    cases j with
    | zero =>
      rw [List.getD_cons_zero] at hjE
      have hla : la ≠ [] := by
        rcases hdisj with h | ⟨k, hk, _⟩
        · exact h
        · omega
      rw [deployLoop_cons, if_pos ⟨hla, fun h => hla (h.trans hjE)⟩]
    | succ j2 =>
      by_cases hm : la ≠ [] ∧ la ≠ argsAt P m
      · rw [deployLoop_cons, if_pos hm]
      · refine deployLoop_step_noncompl P rest la ci lp LoopRes.err hc0 hm ?_
        intro ci2 lp2
        have hlen : j2 < rest.length := by simp only [List.length_cons] at hj; omega
        refine ih _ ci2 lp2 (fun k hk => by
          have := hcompl (k + 1) (by simp only [List.length_cons]; omega)
          rwa [List.getD_cons_succ] at this) ?_
        refine ⟨j2, hlen, by rwa [List.getD_cons_succ] at hjE, ?_⟩
        rcases hdisj with h | ⟨k, hk, hkne⟩
        · left
          have h0 : ¬(la = []) := h
          simp only [if_neg h0]
          exact h
        · cases k with
          | zero =>
            rw [List.getD_cons_zero] at hkne
            left
            by_cases h0 : la = []
            · simpa [h0] using hkne
            · simpa [h0] using h0
          | succ k2 =>
            right
            exact ⟨k2, by omega, by rwa [List.getD_cons_succ] at hkne⟩

lemma deployLoop_step_noncompl_ex (P : ParserModel) {m : Pstr} (rest la ci lp : List Pstr)
    (V : List Pstr) (hc0 : alreadyCompliant P m = false)
    (hcond : ¬(la ≠ [] ∧ la ≠ argsAt P m))
    (hrec : ∀ ci2 lp2, ∃ ci3 lp3,
      deployLoop P rest (if la = [] then argsAt P m else la) ci2 lp2 =
        LoopRes.done V ci3 lp3) :
    ∃ ci3 lp3, deployLoop P (m :: rest) la ci lp = LoopRes.done V ci3 lp3 := by
  rw [deployLoop_cons, if_neg hcond]
  by_cases hn : not_modssl_ifmodule P.get_all_args (noargOf m) = true
  · have hi := inner_false_of_compl_false hc0 hn
    rw [if_pos hn, if_neg (by simp [hi])]
    exact hrec _ _
  · rw [if_neg hn]
    exact hrec _ _

lemma deployLoop_done_ordered (P : ParserModel) :
    ∀ (ms ci lp la : List Pstr),
      (∀ k < ms.length, alreadyCompliant P (ms.getD k []) = false) →
      ((la = [] ∧
        (∀ j k, k < j → j < ms.length → argsAt P (ms.getD j []) = [] →
          argsAt P (ms.getD k []) = []) ∧
        (∀ j k, j < ms.length → k < ms.length → argsAt P (ms.getD j []) ≠ [] →
          argsAt P (ms.getD k []) ≠ [] →
          argsAt P (ms.getD j []) = argsAt P (ms.getD k []))) ∨
       (la ≠ [] ∧ ∀ k < ms.length, argsAt P (ms.getD k []) = la)) →
      ∃ ci2 lp2, deployLoop P ms la ci lp =
        LoopRes.done (if la = [] then firstNonempty (ms.map (argsAt P)) else la) ci2 lp2 := by
  intro ms
  induction ms with
  | nil =>
    intro ci lp la _ hcase
    refine ⟨ci, lp, ?_⟩
    rcases hcase with ⟨h0, _, _⟩ | ⟨h0, _⟩
    · simp [deployLoop, h0, firstNonempty]
    · simp [deployLoop, h0]
  | cons m rest ih =>
    intro ci lp la hcompl hcase
    have hc0 : alreadyCompliant P m = false := by
      have := hcompl 0 (by simp only [List.length_cons]; omega)
      rwa [List.getD_cons_zero] at this
    have hcshift : ∀ k < rest.length, alreadyCompliant P (rest.getD k []) = false := by
      intro k hk
      have := hcompl (k + 1) (by simp only [List.length_cons]; omega)
      rwa [List.getD_cons_succ] at this
    rcases hcase with ⟨h0, hprec, hagree⟩ | ⟨h0, hall⟩
    · subst h0
      have hcond : ¬(([] : List Pstr) ≠ [] ∧ ([] : List Pstr) ≠ argsAt P m) :=
        fun hc => hc.1 rfl
      by_cases hm0 : argsAt P m = []
      · have hrec : ∀ ci2 lp2, ∃ ci3 lp3,
            deployLoop P rest (if ([] : List Pstr) = [] then argsAt P m else [])
              ci2 lp2 = LoopRes.done
                (if ([] : List Pstr) = [] then
                  firstNonempty ((m :: rest).map (argsAt P)) else []) ci3 lp3 := by
          intro ci2 lp2
          have hval : (if ([] : List Pstr) = [] then
              firstNonempty ((m :: rest).map (argsAt P)) else []) =
              firstNonempty (rest.map (argsAt P)) := by
            simp [firstNonempty, hm0]
          rw [hval]
          have := ih ci2 lp2 [] hcshift (Or.inl ⟨rfl, ?_, ?_⟩)
          · simpa [hm0] using this
          · intro j k hkj hj hje
            have := hprec (j + 1) (k + 1) (by omega)
              (by simp only [List.length_cons]; omega)
              (by rwa [List.getD_cons_succ])
            rwa [List.getD_cons_succ] at this
          · intro j k hj hk hjne hkne
            have := hagree (j + 1) (k + 1)
              (by simp only [List.length_cons]; omega)
              (by simp only [List.length_cons]; omega)
              (by rwa [List.getD_cons_succ])
              (by rwa [List.getD_cons_succ])
            rw [List.getD_cons_succ, List.getD_cons_succ] at this
            exact this
        exact deployLoop_step_noncompl_ex P rest [] ci lp _ hc0 hcond hrec
      · have hall2 : ∀ k < rest.length, argsAt P (rest.getD k []) = argsAt P m := by
          intro k hk
          by_cases hz : argsAt P (rest.getD k []) = []
          · exfalso
            apply hm0
            have := hprec (k + 1) 0 (Nat.succ_pos k)
              (by simp only [List.length_cons]; omega)
              (by rwa [List.getD_cons_succ])
            rwa [List.getD_cons_zero] at this
          · have := hagree (k + 1) 0
              (by simp only [List.length_cons]; omega)
              (by simp only [List.length_cons]; omega)
              (by rwa [List.getD_cons_succ])
              (by rwa [List.getD_cons_zero])
            rw [List.getD_cons_succ, List.getD_cons_zero] at this
            exact this
        have hrec : ∀ ci2 lp2, ∃ ci3 lp3,
            deployLoop P rest (if ([] : List Pstr) = [] then argsAt P m else [])
              ci2 lp2 = LoopRes.done
                (if ([] : List Pstr) = [] then
                  firstNonempty ((m :: rest).map (argsAt P)) else []) ci3 lp3 := by
          intro ci2 lp2
          have hval : (if ([] : List Pstr) = [] then
              firstNonempty ((m :: rest).map (argsAt P)) else []) = argsAt P m := by
            simp [firstNonempty, hm0]
          rw [hval]
          have := ih ci2 lp2 (argsAt P m) hcshift (Or.inr ⟨hm0, hall2⟩)
          simpa [hm0] using this
        exact deployLoop_step_noncompl_ex P rest [] ci lp _ hc0 hcond hrec
    · have hm : argsAt P m = la := by
        have := hall 0 (by simp only [List.length_cons]; omega)
        rwa [List.getD_cons_zero] at this
      have hcond : ¬(la ≠ [] ∧ la ≠ argsAt P m) := fun hc => hc.2 hm.symm
      have hrec : ∀ ci2 lp2, ∃ ci3 lp3,
          deployLoop P rest (if la = [] then argsAt P m else la) ci2 lp2 =
            LoopRes.done (if la = [] then
              firstNonempty ((m :: rest).map (argsAt P)) else la) ci3 lp3 := by
        intro ci2 lp2
        have hla2 : (if la = [] then argsAt P m else la) = la := by simp [h0]
        have hval : (if la = [] then
            firstNonempty ((m :: rest).map (argsAt P)) else la) = la := by simp [h0]
        rw [hla2, hval]
        have hall3 : ∀ k < rest.length, argsAt P (rest.getD k []) = la := by
          intro k hk
          have := hall (k + 1) (by simp only [List.length_cons]; omega)
          rwa [List.getD_cons_succ] at this
        have := ih ci2 lp2 la hcshift (Or.inr ⟨h0, hall3⟩)
        simpa [h0] using this
      exact deployLoop_step_noncompl_ex P rest la ci lp _ hc0 hcond hrec

/-- C1 (amended): when two occurrences carry different non-empty argument
lists, and no occurrence enumerated before the later of the two is already
compliant (correctly wrapped at the first-or-only wrapper of the main file,
which makes the pass return early), the pass raises `MisconfigurationError`;
the error aborts the pass before any store mutation or note, so zero
mutations are applied. -/
theorem C1_conflict_error (P : ParserModel) (i j : Nat) (hij : i < j)
    (hj : j < P.find_dir.length)
    (hi0 : argsAt P (P.find_dir.getD i []) ≠ [])
    (_hj0 : argsAt P (P.find_dir.getD j []) ≠ [])
    (hne : argsAt P (P.find_dir.getD i []) ≠ argsAt P (P.find_dir.getD j []))
    (hearly : ∀ k < j, alreadyCompliant P (P.find_dir.getD k []) = false) :
    _deploy_loadmodule_ssl_if_needed P = Outcome.err := by
  unfold _deploy_loadmodule_ssl_if_needed
  rw [deployLoop_err_init P P.find_dir [] [] i j hij hj hi0 hne hearly]

/-- Witness for C1: a store with two unwrapped occurrences carrying different
non-empty argument lists makes the pass fail. -/
theorem C1_conflict_error_witness :
    _deploy_loadmodule_ssl_if_needed storeC1w = Outcome.err :=
  C1_conflict_error storeC1w 0 1 (by omega) (by decide) (by decide) (by decide) (by decide)
    (fun k hk => by
      have hk0 : k = 0 := by omega
      subst hk0
      decide)

/-- Counterexample to C1 as stated: a store whose first-enumerated occurrence
is already compliant while a later occurrence carries a different non-empty
argument list; the pass returns early with the empty plan instead of raising
the conflict error. -/
theorem C1_counterexample :
    argsAt storeC1 mWrap ≠ [] ∧ argsAt storeC1 mOther ≠ [] ∧
    argsAt storeC1 mWrap ≠ argsAt storeC1 mOther ∧
    mWrap ∈ storeC1.find_dir ∧ mOther ∈ storeC1.find_dir ∧
    _deploy_loadmodule_ssl_if_needed storeC1 = Outcome.ok ⟨[], []⟩ := by decide

/-- C2: after one successful run of the pass, a second run on the resulting
store produces the empty plan — no mutation, no note.  When the first run
already produced the empty plan the store is unchanged and the second run is
the first; when the first run mutated, the resulting store (characterized by
`SecondRunFaithful`, modelled from the spec's store-mutation contract)
enumerates only occurrences with the one canonical argument list, one of
which lies in the force-created first wrapper of the main file, so the
second pass returns early with the empty plan. -/
theorem C2_second_run_empty (P : ParserModel) (pl : Plan) (Q : ParserModel)
    (h1 : _deploy_loadmodule_ssl_if_needed P = Outcome.ok pl)
    (h2 : (pl = ⟨[], []⟩ ∧ Q = P) ∨ SecondRunFaithful Q) :
    _deploy_loadmodule_ssl_if_needed Q = Outcome.ok ⟨[], []⟩ := by
  rcases h2 with ⟨hpl, hQ⟩ | ⟨A, hA, hc⟩
  · subst hQ
    rw [h1, hpl]
  · unfold _deploy_loadmodule_ssl_if_needed
    rw [deployLoop_earlyRet Q A Q.find_dir [] [] [] hA (Or.inl rfl) hc]

/-- Witness for C2 at a concrete store. -/
theorem C2_second_run_empty_witness :
    _deploy_loadmodule_ssl_if_needed storeC2w = Outcome.ok ⟨[], []⟩ :=
  C2_second_run_empty storeC2w ⟨[], []⟩ storeC2w (by decide)
    (Or.inr ⟨aArgs, by decide, ⟨mWrap, by decide, by decide⟩⟩)

/-- C3 (amended): for every store in which all occurrences carry identical
argument lists and some occurrence lies inside a correctly-guarded wrapper
that is the first or only wrapper of its type in the main configuration file,
the pass returns the empty plan — zero mutations, zero notes. -/
theorem C3_compliant_empty_plan (P : ParserModel) (A : List Pstr)
    (hA : ∀ m ∈ P.find_dir, argsAt P m = A)
    (hc : ∃ m ∈ P.find_dir, alreadyCompliant P m = true) :
    _deploy_loadmodule_ssl_if_needed P = Outcome.ok ⟨[], []⟩ := by
  unfold _deploy_loadmodule_ssl_if_needed
  rw [deployLoop_earlyRet P A P.find_dir [] [] [] hA (Or.inl rfl) hc]

/-- Witness for C3: one unwrapped occurrence elsewhere plus one compliant
occurrence in the main file, identical arguments — empty plan. -/
theorem C3_compliant_empty_plan_witness :
    _deploy_loadmodule_ssl_if_needed storeC3w = Outcome.ok ⟨[], []⟩ :=
  C3_compliant_empty_plan storeC3w aArgs (by decide) ⟨mWrap, by decide, by decide⟩

/-- Counterexample to C3 as stated: the store contains a compliant occurrence
(correctly wrapped at the main file's first wrapper), but an occurrence with
a different non-empty argument list is enumerated first, so the pass raises
the conflict error instead of returning the empty plan. -/
theorem C3_counterexample :
    mWrap ∈ storeC3.find_dir ∧ alreadyCompliant storeC3 mWrap = true ∧
    _deploy_loadmodule_ssl_if_needed storeC3 = Outcome.err := by decide

/-- C4 (amended): for every store with zero occurrences of the target
directive the pass returns the empty plan — it creates no wrapper and adds
no directive (the force-creation only happens when at least one occurrence
with a non-empty argument list exists). -/
theorem C4_no_occurrences_empty_plan (P : ParserModel) (h : P.find_dir = []) :
    _deploy_loadmodule_ssl_if_needed P = Outcome.ok ⟨[], []⟩ := by
  unfold _deploy_loadmodule_ssl_if_needed
  rw [h]
  rfl

/-- Witness for C4 at the empty store. -/
theorem C4_no_occurrences_empty_plan_witness :
    _deploy_loadmodule_ssl_if_needed storeC4 = Outcome.ok ⟨[], []⟩ :=
  C4_no_occurrences_empty_plan storeC4 rfl

/-- Counterexample to C4 as stated: on the store with zero occurrences the
pass issues no `createIfmod` and no `addDir` — the plan is empty, not a
one-wrapper-one-directive plan. -/
theorem C4_counterexample :
    storeC4.find_dir = [] ∧
    _deploy_loadmodule_ssl_if_needed storeC4 = Outcome.ok ⟨[], []⟩ := by decide

/-- C5 (amended): when no occurrence lies in the main configuration entry
point, all occurrences agree on a non-empty argument list, and at least one
occurrence exists, the pass force-creates the wrapper at the beginning of the
main file and adds the directive there — but it does NOT stop: it then also
removes (and rewraps) every occurrence that was not inside a matching
wrapper. -/
theorem C5_force_create_then_rewraps (P : ParserModel) (A : List Pstr)
    (hne : P.find_dir ≠ [])
    (hA : ∀ m ∈ P.find_dir, argsAt P m = A) (hA0 : A ≠ [])
    (hprim : ∀ m ∈ P.find_dir, hasSub (noargOf m) P.loc_default = false) :
    ∃ pl, _deploy_loadmodule_ssl_if_needed P = Outcome.ok pl ∧
      pl.evs.take 2 = [Ev.createIfmod (augPath P.loc_default) sGuard true,
        Ev.addDir P.create_ifmod.dropLast sLoadModule A] ∧
      ∀ m ∈ P.find_dir, not_modssl_ifmodule P.get_all_args (noargOf m) = false →
        Ev.removeDir (noargOf m) ∈ pl.evs := by
  have hcompl : ∀ m ∈ P.find_dir, alreadyCompliant P m = false := by
    intro m hm
    unfold alreadyCompliant
    rw [hprim m hm]
    simp
  obtain ⟨m0, rest, hms⟩ : ∃ m0 rest, P.find_dir = m0 :: rest := by
    cases hmd : P.find_dir with
    | nil => exact absurd hmd hne
    | cons a t => exact ⟨a, t, rfl⟩
  rw [hms] at hA hcompl
  unfold _deploy_loadmodule_ssl_if_needed
  rw [hms]
  rw [deployLoop_done_init P A m0 rest [] [] hA hcompl]
  dsimp only
  rw [if_neg hA0]
  refine ⟨_, rfl, ?_, ?_⟩
  · obtain ⟨t, nt, h1, _⟩ := rewrapLoop_evs_prefix P A (([] : List Pstr) ++ lpOf P (m0 :: rest))
      (([] ++ ciOf P (m0 :: rest)) ++ [P.create_ifmod.dropLast])
      [Ev.createIfmod (augPath P.loc_default) sGuard true,
        Ev.addDir P.create_ifmod.dropLast sLoadModule A] [noteAdded]
    rw [h1]
    rfl
  · intro m hm hnm
    have hmem : noargOf m ∈ ([] : List Pstr) ++ lpOf P (m0 :: rest) := by
      rw [List.nil_append]
      unfold lpOf
      refine List.mem_map.mpr ⟨m, List.mem_filter.mpr ⟨hms ▸ hm, ?_⟩, rfl⟩
      simp [hnm]
    exact rewrapLoop_remove_mem P A _ _ _ _ _ hmem

/-- Witness for C5: a single unwrapped occurrence in a non-primary file. -/
theorem C5_force_create_then_rewraps_witness :
    ∃ pl, _deploy_loadmodule_ssl_if_needed storeC5 = Outcome.ok pl ∧
      pl.evs.take 2 = [Ev.createIfmod (augPath storeC5.loc_default) sGuard true,
        Ev.addDir storeC5.create_ifmod.dropLast sLoadModule aArgs] ∧
      ∀ m ∈ storeC5.find_dir,
        not_modssl_ifmodule storeC5.get_all_args (noargOf m) = false →
        Ev.removeDir (noargOf m) ∈ pl.evs :=
  C5_force_create_then_rewraps storeC5 aArgs (by decide) (by decide) (by decide) (by decide)

/-- Counterexample to C5 as stated: no occurrence lies in the primary entry
point, yet after force-creating the wrapper and adding the directive the
pass does not stop — it removes the occurrence elsewhere and rewraps it. -/
theorem C5_counterexample :
    (∀ m ∈ storeC5.find_dir, hasSub (noargOf m) storeC5.loc_default = false) ∧
    _deploy_loadmodule_ssl_if_needed storeC5 =
      Outcome.ok ⟨[Ev.createIfmod augD sGuard true,
        Ev.addDir wDef sLoadModule aArgs,
        Ev.removeDir pOther,
        Ev.getIfmod pOtherFile sGuard true,
        Ev.addDir wOther sLoadModule aArgs],
        [noteAdded, noteWrapped]⟩ := by decide

/-- C6 (amended): for a store with one unwrapped occurrence directly under
the primary scope and no other occurrence, the pass creates the wrapper at
the beginning of the primary scope and adds the directive with the original
arguments inside it — and then REMOVES the original unwrapped occurrence
(the wrapper lookup at the primary scope finds the force-created wrapper,
already produced this pass, so no second copy is added). -/
theorem C6_unwrapped_primary_removed (P : ParserModel) (m : Pstr)
    (h1 : P.find_dir = [m])
    (h2 : hasSub (strLower (noargOf m)) sIfmodule = false)
    (h3 : argsAt P m ≠ [])
    (h4 : splitHead (noargOf m) sDirSeg = augPath P.loc_default)
    (h5 : (P.get_ifmod (augPath P.loc_default)).dropLast = P.create_ifmod.dropLast) :
    _deploy_loadmodule_ssl_if_needed P =
      Outcome.ok ⟨[Ev.createIfmod (augPath P.loc_default) sGuard true,
        Ev.addDir P.create_ifmod.dropLast sLoadModule (argsAt P m),
        Ev.removeDir (noargOf m),
        Ev.getIfmod (augPath P.loc_default) sGuard true], [noteAdded]⟩ := by
  have hn : not_modssl_ifmodule P.get_all_args (noargOf m) = false := by
    unfold not_modssl_ifmodule
    rw [if_neg (by simp [h2])]
  have hloop : deployLoop P [m] [] [] [] = LoopRes.done (argsAt P m) [] [noargOf m] := by
    rw [deployLoop_cons, if_neg (fun hc => hc.1 rfl), if_neg (by simp [hn])]
    simp [deployLoop]
  unfold _deploy_loadmodule_ssl_if_needed
  rw [h1, hloop]
  dsimp only
  rw [if_neg h3]
  rw [rewrapLoop, h4, h5, if_pos (by simp)]
  rw [rewrapLoop]
  simp

/-- Witness for C6 at a concrete store. -/
theorem C6_unwrapped_primary_removed_witness :
    _deploy_loadmodule_ssl_if_needed storeC6 =
      Outcome.ok ⟨[Ev.createIfmod (augPath storeC6.loc_default) sGuard true,
        Ev.addDir storeC6.create_ifmod.dropLast sLoadModule (argsAt storeC6 mTop),
        Ev.removeDir (noargOf mTop),
        Ev.getIfmod (augPath storeC6.loc_default) sGuard true], [noteAdded]⟩ :=
  C6_unwrapped_primary_removed storeC6 mTop rfl (by decide) (by decide) (by decide)
    (by decide)

/-- Counterexample to C6 as stated: on the single-unwrapped-occurrence store
the plan contains the removal of the original directive — it is not left
untouched. -/
theorem C6_counterexample :
    storeC6.find_dir = [mTop] ∧
    _deploy_loadmodule_ssl_if_needed storeC6 =
      Outcome.ok ⟨[Ev.createIfmod augD sGuard true,
        Ev.addDir wDef sLoadModule aArgs,
        Ev.removeDir pTop,
        Ev.getIfmod augD sGuard true], [noteAdded]⟩ ∧
    Ev.removeDir pTop ∈ [Ev.createIfmod augD sGuard true,
        Ev.addDir wDef sLoadModule aArgs,
        Ev.removeDir pTop,
        Ev.getIfmod augD sGuard true] := by decide

/-- C7: the wrapper classification scans the address backward from the
deepest segment.  For `A/IfModule[1]/Directive` (with `A` free of further
wrapper segments) the classification is exactly the guard test at
`A/IfModule[1]` — the wrapper, not `A`; for an address with no wrapper
segment the classification is `false` for every store (a valid
classification, not an error); for a doubly-nested address the inner wrapper
is examined first and the scan stops at the first match, re-trimming outward
otherwise. -/
theorem C7_backward_innermost_scan :
    (∀ g : Pstr → List Pstr,
      (not_modssl_ifmodule g pWrap = true ↔ sGuard ∈ g wDef)) ∧
    (∀ g : Pstr → List Pstr, not_modssl_ifmodule g pOther = false) ∧
    (∀ g : Pstr → List Pstr,
      (not_modssl_ifmodule g pNested = true ↔
        (sGuard ∈ g wNestedIn ∨ sGuard ∈ g wDef))) := by
  refine ⟨?_, ?_, ?_⟩
  · intro g
    rw [nmi_eq_any]
    rw [show nmiCandidates pWrap (pWrap.length + 1) (strLower pWrap) = [wDef] from
      by decide]
    simp
  · intro g
    rw [nmi_eq_any]
    rw [show nmiCandidates pOther (pOther.length + 1) (strLower pOther) = [] from
      by decide]
    simp
  · intro g
    rw [nmi_eq_any]
    rw [show nmiCandidates pNested (pNested.length + 1) (strLower pNested) =
        [wNestedIn, wDef] from by decide]
    simp

/-- Witness for C7 at a concrete argument oracle. -/
theorem C7_backward_innermost_scan_witness :
    not_modssl_ifmodule (gOf [(wDef, [sGuard])]) pWrap = true ∧
    not_modssl_ifmodule (gOf [(wDef, [sGuard])]) pOther = false :=
  ⟨(C7_backward_innermost_scan.1 (gOf [(wDef, [sGuard])])).mpr (by decide),
   C7_backward_innermost_scan.2.1 (gOf [(wDef, [sGuard])])⟩

/-- C8 (amended): for every store in which no occurrence of the target
directive has a non-empty argument list the pass returns the empty plan —
zero mutations — but records NO note (the source only carries a code
comment on this path; `save_notes` is untouched). -/
theorem C8_no_args_empty_plan (P : ParserModel)
    (h : ∀ m ∈ P.find_dir, argsAt P m = []) :
    _deploy_loadmodule_ssl_if_needed P = Outcome.ok ⟨[], []⟩ := by
  unfold _deploy_loadmodule_ssl_if_needed
  by_cases hex : ∃ m ∈ P.find_dir, alreadyCompliant P m = true
  · rw [deployLoop_earlyRet P [] P.find_dir [] [] [] h (Or.inl rfl) hex]
  · have hco : ∀ m ∈ P.find_dir, alreadyCompliant P m = false := by
      intro m hm
      by_contra hc
      exact hex ⟨m, hm, by revert hc; cases alreadyCompliant P m <;> simp⟩
    rw [deployLoop_done_fixed P [] P.find_dir [] [] h hco]
    rfl

/-- Witness for C8 at a concrete store. -/
theorem C8_no_args_empty_plan_witness :
    _deploy_loadmodule_ssl_if_needed storeC8 = Outcome.ok ⟨[], []⟩ :=
  C8_no_args_empty_plan storeC8 (by decide)

/-- Counterexample to C8 as stated: on a store whose only occurrence has an
empty argument list the pass returns the empty plan with an empty note list
— the "no action, nothing to enable" note the claim promises is never
recorded. -/
theorem C8_counterexample :
    storeC8.find_dir ≠ [] ∧
    (∀ m ∈ storeC8.find_dir, argsAt storeC8 m = []) ∧
    _deploy_loadmodule_ssl_if_needed storeC8 = Outcome.ok ⟨[], []⟩ := by decide

/-- C9 (amended): the `split`-based trim used in the rewrap loop removes
everything from the FIRST occurrence of the segment name onward; the
`rpartition`-based trim used when recording `correct_ifmods` removes from the
LAST occurrence onward.  When the segment name occurs exactly once the two
agree, and both return the prefix strictly before that occurrence. -/
theorem C9_trim_single_occurrence (s d : Pstr) (i : Nat) (hd : d ≠ [])
    (hocc : occursAt s d i) (huniq : ∀ j, occursAt s d j → j = i) :
    splitHead s d = s.take i ∧ (rpartition s d).1 = s.take i := by
  obtain ⟨h1, h2⟩ := matchIdxs_single hd hocc huniq
  constructor
  · unfold splitHead
    rw [h1]
  · unfold rpartition
    rw [h2]

lemma occursAt_uniq_of_matchIdxs {s d : Pstr} {i : Nat} (hd : d ≠ [])
    (h : matchIdxs s d = [i]) : ∀ j, occursAt s d j → j = i := by
  intro j hj
  have hm : j ∈ matchIdxs s d :=
    mem_matchIdxs.mpr ⟨le_of_lt (occursAt_lt_length hd hj), hj⟩
  rw [h] at hm
  simpa using hm

/-- Witness for C9: on the single-occurrence path of the main file both
trims return the prefix before the occurrence. -/
theorem C9_trim_single_occurrence_witness :
    splitHead pTop sDirSeg = pTop.take 32 ∧ (rpartition pTop sDirSeg).1 = pTop.take 32 :=
  C9_trim_single_occurrence pTop sDirSeg 32 (by decide) (by decide)
    (occursAt_uniq_of_matchIdxs (by decide) (by decide))

/-- Counterexample to C9 as stated: on a path where the segment name occurs
twice the two trim sites disagree — `split` cuts before the first
occurrence, `rpartition` before the last. -/
theorem C9_counterexample :
    occursAt s9c sDirSeg 22 ∧
    (rpartition s9c sDirSeg).1 ≠ splitHead s9c sDirSeg ∧
    splitHead s9c sDirSeg = toPstr "/files/etc/httpd/sites" ∧
    (rpartition s9c sDirSeg).1 = toPstr "/files/etc/httpd/sites/directive-dir.conf" := by
  decide

/-- C10: conflict detection is order-dependent for empty argument lists,
given that no occurrence triggers the already-compliant early return: an
empty-argument occurrence enumerated after some non-empty-argument
occurrence makes the pass raise the conflict error; when every
empty-argument occurrence precedes every non-empty one (and the non-empty
lists agree), no conflict error is raised and the first non-empty list
becomes the canonical `loadmod_args`. -/
theorem C10_empty_args_order (P : ParserModel)
    (hearly : ∀ k < P.find_dir.length,
      alreadyCompliant P (P.find_dir.getD k []) = false) :
    ((∃ j, j < P.find_dir.length ∧ argsAt P (P.find_dir.getD j []) = [] ∧
        ∃ k, k < j ∧ argsAt P (P.find_dir.getD k []) ≠ []) →
      deployLoop P P.find_dir [] [] [] = LoopRes.err) ∧
    (((∀ j k, k < j → j < P.find_dir.length →
          argsAt P (P.find_dir.getD j []) = [] →
          argsAt P (P.find_dir.getD k []) = []) ∧
      (∀ j k, j < P.find_dir.length → k < P.find_dir.length →
          argsAt P (P.find_dir.getD j []) ≠ [] →
          argsAt P (P.find_dir.getD k []) ≠ [] →
          argsAt P (P.find_dir.getD j []) = argsAt P (P.find_dir.getD k []))) →
      ∃ ci2 lp2, deployLoop P P.find_dir [] [] [] =
        LoopRes.done (firstNonempty (P.find_dir.map (argsAt P))) ci2 lp2) := by
  constructor
  · intro hex
    obtain ⟨j, hj, hjE, k, hk, hkne⟩ := hex
    exact deployLoop_err_emptyAfter P P.find_dir [] [] [] hearly
      ⟨j, hj, hjE, Or.inr ⟨k, hk, hkne⟩⟩
  · intro hpair
    obtain ⟨hprec, hagree⟩ := hpair
    have := deployLoop_done_ordered P P.find_dir [] [] [] hearly
      (Or.inl ⟨rfl, hprec, hagree⟩)
    simpa using this

/-- Witness for C10: an empty-argument occurrence enumerated first, then a
non-empty one — no error, and the non-empty list becomes canonical. -/
theorem C10_empty_args_order_witness :
    ∃ ci2 lp2, deployLoop storeC10w storeC10w.find_dir [] [] [] =
      LoopRes.done (firstNonempty (storeC10w.find_dir.map (argsAt storeC10w)))
        ci2 lp2 := by
  refine (C10_empty_args_order storeC10w ?_).2 ⟨?_, ?_⟩
  · intro k hk
    have hk2 : k < 2 := hk
    interval_cases k
    · decide
    · decide
  · intro j k hkj hj hje
    have hj2 : j < 2 := hj
    interval_cases j
    · omega
    · exfalso
      revert hje
      decide
  · intro j k hj hk hjne hkne
    have hj2 : j < 2 := hj
    have hk2 : k < 2 := hk
    interval_cases j
    · exact absurd (by decide) hjne
    · interval_cases k
      · exact absurd (by decide) hkne
      · rfl
